import Mathlib

/-!
Verification of the Gregorian ⇄ Jalali conversion core of `Ext.ux.JalaliDatePlugin`.

The development shallowly embeds the two source layers:

* `Ext.Date.JalaliConverter` (src/Jalali.js): the raw day-number converter.
  JavaScript numbers holding integer values are embedded as `Int`; `Math.floor(a / b)`
  is `Int.fdiv`; the JavaScript `%` operator (truncating remainder) is `Int.tmod`.
  Reads past the end of the fixed 12-entry month tables yield `undefined` in
  JavaScript and poison the result with `NaN`; such reads are embedded as `none`,
  so a converter returns `some` exactly when every table access is in bounds and
  the result is a genuine integer triple.

* `Ext.Date` calendar engine (src/JalaliDatePlugin.js, `Ext.ux.JalaliDate` override):
  validation, leap years, date-of-month correction, arithmetic and parsing.
  JavaScript strings are embedded as `List Char`.

Dates (`Date` objects) are represented by the calendar triples they decompose to:
a date is constructed from a Gregorian triple and all Jalali accessors factor
through `convertToJalali`, i.e. through `gregorianToJalali` of that triple.
-/

namespace Ext.Date.JalaliConverter

/-- Gregorian month lengths table (src/Jalali.js line 52). -/
def gregorianDaysInMonth : List Int := [31, 28, 31, 30, 31, 30, 31, 31, 30, 31, 30, 31]

/-- Jalali month lengths table (src/Jalali.js line 53). -/
def jalaliDaysInMonth : List Int := [31, 31, 31, 31, 31, 31, 30, 30, 30, 30, 30, 29]

/-- Models `div(a, b) = Math.floor(a / b)` (src/Jalali.js lines 55-57): floor
division, which on integers is `Int.fdiv`. -/
def div (a b : Int) : Int := Int.fdiv a b

/-- Models `remainder(a, b) = a - Math.floor(a / b) * b` (src/Jalali.js lines 59-61). -/
def remainder (a b : Int) : Int := a - Int.fdiv a b * b

/-- Models the loop `for (i = 0; i < m; i += 1) { total += table[i]; }` summing the
first `m` entries of a month table. The loop body reads `table[i]` for every
`0 ≤ i < m`, so it stays inside the 12-entry table exactly when `m ≤ 12`; for
larger `m` the JavaScript read returns `undefined` and the sum becomes `NaN`,
embedded here as `none`. A non-positive `m` runs the loop zero times. -/
def sumFirstMonths (table : List Int) (m : Int) : Option Int :=
  if m.toNat ≤ table.length then some ((table.take m.toNat).sum) else none

/-- Models the Jalali month scan of `gregorianToJalali` (src/Jalali.js lines 107-109):
`for (i = 0; i < 11 && j_day_no >= j_days_in_month[i]; i += 1) j_day_no -= ...`.
The bound `i < 11` is embedded by scanning `jalaliDaysInMonth.take 11`, so the
loop reads only indices `0..10` and always terminates with `i ≤ 11`.
Returns the final loop index and the remaining day count. -/
def monthScan : List Int → Int → Nat × Int
  | [], d => (0, d)
  | len :: rest, d =>
    if d ≥ len then
      let p := monthScan rest (d - len)
      (p.1 + 1, p.2)
    else (0, d)

/-- Models the Gregorian month scan of `jalaliToGregorian` (src/Jalali.js lines
176-178): `for (i = 0; g_day_no >= g_days_in_month[i] + (i === 1 && leap); i += 1)`.
The loop has no bound on `i`: each condition test reads `g_days_in_month[i]`, so
if `i` reaches 12 the read is out of bounds (`undefined` in JavaScript),
embedded as `none`. `i` is threaded so February (`i = 1`) gets the leap day. -/
def gregMonthScan (leap : Bool) : List Int → Nat → Int → Option (Nat × Int)
  | [], _, _ => none
  | len :: rest, i, d =>
    let l := len + (if i = 1 ∧ leap then 1 else 0)
    if d ≥ l then gregMonthScan leap rest (i + 1) (d - l) else some (i, d)

/-- Models the Gregorian leap-year test of `gregorianToJalali` (src/Jalali.js line
88): `(gy % 4 === 0 && gy % 100 !== 0) || (gy % 400 === 0)`, where `gy` is the
year relative to 1600 and `%` is JavaScript's truncating remainder. -/
def gregLeap (gy : Int) : Prop :=
  (Int.tmod gy 4 = 0 ∧ Int.tmod gy 100 ≠ 0) ∨ Int.tmod gy 400 = 0

instance (gy : Int) : Decidable (gregLeap gy) := by
  unfold gregLeap; infer_instance

/-- Models the Gregorian day-number accumulation of `gregorianToJalali`
(src/Jalali.js line 84): `365 * gy + div(gy + 3, 4) - div(gy + 99, 100) + div(gy + 399, 400)`,
the number of days before internal year `gy` (years counted from 1600). -/
def gregYearDays (gy : Int) : Int :=
  365 * gy + div (gy + 3) 4 - div (gy + 99) 100 + div (gy + 399) 400

/-- Models the Jalali day-number accumulation of `jalaliToGregorian`
(src/Jalali.js line 137): `365 * jy + div(jy, 33) * 8 + div((remainder(jy, 33) + 3), 4)`,
the number of days before internal year `jy` (years counted from 979). -/
def jalaliYearDays (jy : Int) : Int :=
  365 * jy + div jy 33 * 8 + div (remainder jy 33 + 3) 4

/-- Models the Gregorian day-number computation of `gregorianToJalali`
(src/Jalali.js lines 75-92): year part, month accumulation loop, the leap-day
adjustment `if (gm > 1 && leap)`, and the day. `none` when the month loop reads
past the table. -/
def gregDayNo (g : Int × Int × Int) : Option Int :=
  let gy := g.1 - 1600
  let gm := g.2.1 - 1
  let gd := g.2.2 - 1
  (sumFirstMonths gregorianDaysInMonth gm).map fun s =>
    gregYearDays gy + s + (if 1 < gm ∧ gregLeap gy then 1 else 0) + gd

/-- Models the Jalali day-number computation of `jalaliToGregorian`
(src/Jalali.js lines 128-142): year part, month accumulation loop, and the day. -/
def jalaliDayNo (j : Int × Int × Int) : Option Int :=
  let jy := j.1 - 979
  let jm := j.2.1 - 1
  let jd := j.2.2 - 1
  (sumFirstMonths jalaliDaysInMonth jm).map fun s =>
    jalaliYearDays jy + s + jd

/-- Models the Jalali year extraction of `gregorianToJalali` (src/Jalali.js lines
96-105): the 12053-day (33-year) grand cycle, the 1461-day (4-year) sub-cycle,
and the `j_day_no >= 366` correction. Returns the Jalali year and the remaining
day-of-year count. -/
def jalaliSplitYear (jDayNo : Int) : Int × Int :=
  let jNp := div jDayNo 12053
  let r1 := remainder jDayNo 12053
  let jy := 979 + 33 * jNp + 4 * div r1 1461
  let r2 := remainder r1 1461
  if r2 ≥ 366 then (jy + div (r2 - 1) 365, remainder (r2 - 1) 365) else (jy, r2)

/-- Models the 4-year tail of the Gregorian year extraction of `jalaliToGregorian`
(src/Jalali.js lines 164-174): `gy += 4 * div(g_day_no, 1461)` etc., with the
`g_day_no >= 366` correction clearing the leap flag. -/
def gregSplitYear4 (gy r : Int) (leap : Bool) : Int × Int × Bool :=
  let gy' := gy + 4 * div r 1461
  let r' := remainder r 1461
  if r' ≥ 366 then (gy' + div (r' - 1) 365, remainder (r' - 1) 365, false)
  else (gy', r', leap)

/-- Models the Gregorian year extraction of `jalaliToGregorian` (src/Jalali.js
lines 146-174): the 146097-day (400-year) cycle, the century correction with its
`g_day_no >= 36525` branch and leap-flag bookkeeping, then the 4-year tail.
Returns the Gregorian year, the remaining day-of-year count and the leap flag. -/
def gregSplitYear (gDayNo : Int) : Int × Int × Bool :=
  let gy := 1600 + 400 * div gDayNo 146097
  let r0 := remainder gDayNo 146097
  if r0 ≥ 36525 then
    let r1 := r0 - 1
    let gy' := gy + 100 * div r1 36524
    let r2 := remainder r1 36524
    if r2 ≥ 365 then gregSplitYear4 gy' (r2 + 1) true
    else gregSplitYear4 gy' r2 false
  else gregSplitYear4 gy r0 true

/-- Models the decomposition half of `gregorianToJalali` (src/Jalali.js lines
94-113): split the shifted day number into a Jalali year, scan the Jalali month
table, and build the 1-based result triple. -/
def jalaliFromDayNo (n : Int) : Int × Int × Int :=
  let p := jalaliSplitYear n
  let q := monthScan (jalaliDaysInMonth.take 11) p.2
  (p.1, (q.1 : Int) + 1, q.2 + 1)

/-- Models the decomposition half of `jalaliToGregorian` (src/Jalali.js lines
144-182): split the shifted day number into a Gregorian year and leap flag, scan
the Gregorian month table, and build the 1-based result triple. `none` when the
month scan runs off the end of the table. -/
def gregFromDayNo (n : Int) : Option (Int × Int × Int) :=
  let p := gregSplitYear n
  (gregMonthScan p.2.2 gregorianDaysInMonth 0 p.2.1).map fun q =>
    (p.1, (q.1 : Int) + 1, q.2 + 1)

/-- Models `Ext.Date.JalaliConverter.gregorianToJalali` (src/Jalali.js lines
68-114): compute the Gregorian day number, shift by the epoch offset 79, and
decompose into a Jalali triple. Input and output triples are 1-based in month. -/
def gregorianToJalali (g : Int × Int × Int) : Option (Int × Int × Int) :=
  (gregDayNo g).map fun n => jalaliFromDayNo (n - 79)

/-- Models `Ext.Date.JalaliConverter.jalaliToGregorian` (src/Jalali.js lines
121-183): compute the Jalali day number, shift by the epoch offset 79, and
decompose into a Gregorian triple. Input and output triples are 1-based in month. -/
def jalaliToGregorian (j : Int × Int × Int) : Option (Int × Int × Int) :=
  (jalaliDayNo j).bind fun n => gregFromDayNo (n + 79)

end Ext.Date.JalaliConverter

namespace Ext.Date

open JalaliConverter

/-- Models `Ext.Date.isJalaliValid` (src/JalaliDatePlugin.js lines 778-786):
bounds check, then a Jalali → Gregorian → Jalali round trip compared with the
input. The `none` branches are unreachable for bounds-checked months; they
correspond to the JavaScript comparison `NaN === y`, which is false. -/
def isJalaliValid (y m d : Int) : Bool :=
  if y > 1500 ∨ y < 1 ∨ m > 12 ∨ m < 1 ∨ d > 31 ∨ d < 1 then false
  else
    match jalaliToGregorian (y, m, d) with
    | none => false
    | some g =>
      match gregorianToJalali g with
      | none => false
      | some j => j.1 == y && j.2.1 == m && j.2.2 == d

/-- Models `Ext.Date.isJalaliLeapYear` (src/JalaliDatePlugin.js lines 891-897)
applied to a plain year number (the non-`Date` branch):
`Ext.Date.isJalaliValid(year, 12, 30)`. -/
def isJalaliLeapYear (year : Int) : Bool :=
  isJalaliValid year 12 30

/-- Models `Ext.Date.correctJalaliDateOfMonth` (src/JalaliDatePlugin.js lines
795-807): clamp the date into `[1, 31]`, then cap Esfand (0-based month 11) at
29 or 30 by leap year, and cap any other month above index 5 at 30. -/
def correctJalaliDateOfMonth (year month date : Int) : Int :=
  let d := max 1 (min 31 date)
  if month = 11 ∧ d > 29 then
    if isJalaliLeapYear year then 30 else 29
  else if month > 5 ∧ d > 30 then 30
  else d

/-- Models the month-length computation of `Ext.Date.getJalaliDaysInMonth`
(src/JalaliDatePlugin.js lines 946-958) on the Jalali year and 0-based month
that `convertToJalali` derives from the date argument. -/
def getJalaliDaysInMonth (jalaliYear jalaliMonth : Int) : Int :=
  if jalaliMonth < 6 then 31
  else if jalaliMonth < 11 then 30
  else if isJalaliLeapYear jalaliYear then 30
  else 29

/-- Models JavaScript `parseInt(s, 10)` on an embedded string: skip leading
whitespace, read an optional sign, then the maximal leading run of decimal
digits; `none` (JavaScript `NaN`) when that run is empty. Trailing characters
are ignored, as in JavaScript. -/
def parseIntJS (s : List Char) : Option Int :=
  let t := s.dropWhile Char.isWhitespace
  match t with
  | '-' :: rest => (leadDigits rest).map fun n => -(n : Int)
  | '+' :: rest => (leadDigits rest).map fun n => (n : Int)
  | _ => (leadDigits t).map fun n => (n : Int)
where
  /-- Value of the maximal leading digit run, `none` when there is none. -/
  leadDigits (cs : List Char) : Option Nat :=
    let ds := cs.takeWhile Char.isDigit
    if ds.isEmpty then none
    else some (ds.foldl (fun a c => 10 * a + (c.toNat - '0'.toNat)) 0)

/-- Models JavaScript `String.prototype.split('/')` on an embedded string. -/
def splitOnSlash : List Char → List (List Char)
  | [] => [[]]
  | c :: rest =>
    match splitOnSlash rest with
    | [] => [[c]]
    | g :: gs => if c = '/' then [] :: g :: gs else (c :: g) :: gs

/-- Models `Ext.Date.parseJalali` (src/JalaliDatePlugin.js lines 827-843): split
on `/`, `parseInt` the first three fields (a missing field is `undefined`, hence
`NaN`, hence `none`), bounds-check, convert to Gregorian, and in strict mode
reject unless the constructed date's Jalali fields reproduce the input. The
result is the Gregorian triple of the returned `Date`. -/
def parseJalali (jalaliString : List Char) (strict : Bool) : Option (Int × Int × Int) :=
  let fields := splitOnSlash jalaliString
  match (fields.get? 0).bind parseIntJS, (fields.get? 1).bind parseIntJS,
      (fields.get? 2).bind parseIntJS with
  | some jy, some jm, some jd =>
    if jy > 1500 ∨ jy < 1 ∨ jm > 12 ∨ jm < 1 ∨ jd > 31 ∨ jd < 1 then none
    else
      (jalaliToGregorian (jy, jm, jd)).bind fun g =>
        if strict ∧ gregorianToJalali g ≠ some (jy, jm, jd) then none
        else some g
  | _, _, _ => none

/-- Interval names accepted by `addJalali`: `Ext.Date.DAY`, `Ext.Date.MONTH`,
`Ext.Date.YEAR`. -/
inductive JalaliInterval
  | day
  | month
  | year
deriving DecidableEq

/-- Models the day number of ECMAScript `MakeDay(y, m, d)` for a 0-based month
`m` in `0..11` and any integer day `d`: `d - 1` days after the first of that
month, in the converter's own day-number coordinates. -/
def jsMakeDay (y m d : Int) : Option Int :=
  (gregDayNo (y, m + 1, 1)).map fun n => n + (d - 1)

/-- Models an ECMAScript `Date` field write landing on `MakeDay(y, m, d)`: the
normalized Gregorian triple that day number denotes, so a day past the end of
the month rolls forward into the following months. -/
def jsMakeDate (y m d : Int) : Option (Int × Int × Int) :=
  (jsMakeDay y m d).bind gregFromDayNo

/-- Models the write-back `d.setFullYear(gd[0]); d.setMonth(gd[1] - 1);
d.setDate(gd[2])` (src/JalaliDatePlugin.js lines 935-937) applied to the `Date`
holding the Gregorian triple `g`: `setFullYear` keeps the current 0-based month
and day-of-month, `setMonth` keeps the current year and day-of-month, and
`setDate` keeps the current year and month, each renormalizing through
`MakeDay`, so for example "February 31" rolls into early March before
`setDate` runs. -/
def writeBackJS (g gd : Int × Int × Int) : Option (Int × Int × Int) :=
  (jsMakeDate gd.1 (g.2.1 - 1) g.2.2).bind fun g1 =>
    (jsMakeDate g1.1 (gd.2.1 - 1) g1.2.2).bind fun g2 =>
      jsMakeDate g2.1 (g2.2.1 - 1) gd.2.2

/-- The `switch` of `Ext.Date.addJalali` (src/JalaliDatePlugin.js lines
921-933) on the 0-based Jalali decomposition `(jy, jm, jd)` of the starting
date: DAY adds to the date; MONTH renormalizes the month by `Math.floor` and
the JavaScript `%`, then corrects the date; YEAR adds to the year, then
corrects the date. The returned triple carries the 1-based month passed to
`jalaliToGregorian` on line 934. -/
def addJalaliSwitch (jy jm jd : Int) (interval : JalaliInterval) (value : Int) :
    Int × Int × Int :=
  match interval with
  | .day => (jy, jm + 1, jd + value)
  | .month =>
    let m1 := jm + value
    let y1 := jy + div m1 12
    let m2 := Int.tmod m1 12
    let m3 := if m2 < 0 then m2 + 12 else m2
    (y1, m3 + 1, correctJalaliDateOfMonth y1 m3 jd)
  | .year =>
    let y1 := jy + value
    (y1, jm + 1, correctJalaliDateOfMonth y1 jm jd)

/-- Models `Ext.Date.addJalali` (src/JalaliDatePlugin.js lines 907-939). The
starting `Date` is given by its Gregorian triple `g`; `convertToJalali` (line
915) decomposes it through `gregorianToJalali` into the 0-based Jalali fields
the switch updates; the updated triple is converted back to Gregorian (line
934) and written into the date by the three setters (lines 935-937), whose
rollover `writeBackJS` models. The value here is the Jalali triple (1-based
month) that `convertToJalali` derives from the returned date; a zero `value`
returns a plain copy of the starting date (line 911), observed the same
way. -/
def addJalali (g : Int × Int × Int) (interval : JalaliInterval) (value : Int) :
    Option (Int × Int × Int) :=
  if value = 0 then gregorianToJalali g
  else
    (gregorianToJalali g).bind fun j =>
      (jalaliToGregorian (addJalaliSwitch j.1 (j.2.1 - 1) j.2.2 interval value)).bind
        fun gd => (writeBackJS g gd).bind gregorianToJalali

end Ext.Date

/-! ## Arithmetic bridges

The source's `div`/`remainder` are floor division; all call sites use positive
literal divisors, where floor division agrees with Euclidean division, which
`omega` understands. -/

namespace Ext.Date.JalaliConverter

theorem div_eq_ediv (a : Int) {b : Int} (hb : 0 ≤ b) : div a b = a / b :=
  Int.fdiv_eq_ediv a hb

theorem remainder_eq_emod (a : Int) {b : Int} (hb : 0 ≤ b) : remainder a b = a % b := by
  unfold remainder
  rw [Int.fdiv_eq_ediv a hb, Int.emod_def]
  ring

theorem div4 (a : Int) : div a 4 = a / 4 := div_eq_ediv a (by norm_num)

theorem div12 (a : Int) : div a 12 = a / 12 := div_eq_ediv a (by norm_num)

theorem div33 (a : Int) : div a 33 = a / 33 := div_eq_ediv a (by norm_num)

theorem div100 (a : Int) : div a 100 = a / 100 := div_eq_ediv a (by norm_num)

theorem div365 (a : Int) : div a 365 = a / 365 := div_eq_ediv a (by norm_num)

theorem div400 (a : Int) : div a 400 = a / 400 := div_eq_ediv a (by norm_num)

theorem div1461 (a : Int) : div a 1461 = a / 1461 := div_eq_ediv a (by norm_num)

theorem div12053 (a : Int) : div a 12053 = a / 12053 := div_eq_ediv a (by norm_num)

theorem div36524 (a : Int) : div a 36524 = a / 36524 := div_eq_ediv a (by norm_num)

theorem div146097 (a : Int) : div a 146097 = a / 146097 := div_eq_ediv a (by norm_num)

theorem rem33 (a : Int) : remainder a 33 = a % 33 := remainder_eq_emod a (by norm_num)

theorem rem365 (a : Int) : remainder a 365 = a % 365 := remainder_eq_emod a (by norm_num)

theorem rem1461 (a : Int) : remainder a 1461 = a % 1461 := remainder_eq_emod a (by norm_num)

theorem rem12053 (a : Int) : remainder a 12053 = a % 12053 := remainder_eq_emod a (by norm_num)

theorem rem36524 (a : Int) : remainder a 36524 = a % 36524 := remainder_eq_emod a (by norm_num)

theorem rem146097 (a : Int) : remainder a 146097 = a % 146097 := remainder_eq_emod a (by norm_num)

theorem tmod_eq_zero_iff (a b : Int) : Int.tmod a b = 0 ↔ a % b = 0 :=
  ⟨fun h => Int.emod_eq_zero_of_dvd (Int.dvd_of_tmod_eq_zero h),
   fun h => Int.tmod_eq_zero_of_dvd (Int.dvd_of_emod_eq_zero h)⟩

/-- Derived closed form of the Jalali leap pattern induced by the converter's
33-year cycle: internal years `0, 4, 8, …, 28 (mod 33)` are leap. Used only to
state lemmas; the source has no such predicate. -/
def jalaliLeap (jy : Int) : Prop := jy % 33 % 4 = 0 ∧ jy % 33 ≠ 32

instance (jy : Int) : Decidable (jalaliLeap jy) := by
  unfold jalaliLeap; infer_instance

/-- Euclidean-remainder form of `gregLeap`. -/
theorem gregLeap_iff (gy : Int) :
    gregLeap gy ↔ (gy % 4 = 0 ∧ gy % 100 ≠ 0) ∨ gy % 400 = 0 := by
  unfold gregLeap
  simp only [ne_eq, tmod_eq_zero_iff]

/-- Number of days in internal Jalali year `jy` per `jalaliYearDays`:
365, plus one in a leap year. -/
theorem jalaliYearDays_succ (jy : Int) :
    jalaliYearDays (jy + 1) =
      jalaliYearDays jy + 365 + (if jalaliLeap jy then 1 else 0) := by
  unfold jalaliYearDays jalaliLeap
  rw [div33, div33, rem33, rem33, div4, div4]
  split_ifs <;> omega

set_option maxHeartbeats 2000000 in
/-- The forward Jalali year split: the day number of day `dd` of internal year
`y` decomposes back into that year and day. -/
theorem jalaliSplitYear_fwd (y dd : Int) (h0 : 0 ≤ dd)
    (h1 : dd ≤ 364 + (if jalaliLeap y then 1 else 0)) :
    jalaliSplitYear (jalaliYearDays y + dd) = (979 + y, dd) := by
  obtain ⟨k, r, rfl, hr0, hr33⟩ : ∃ k r, y = 33 * k + r ∧ 0 ≤ r ∧ r < 33 :=
    ⟨y / 33, y % 33, by omega, by omega, by omega⟩
  unfold jalaliLeap at h1
  simp only [jalaliSplitYear, jalaliYearDays, div12053, rem12053, div1461, rem1461,
    div365, rem365, div33, rem33, div4]
  interval_cases r <;> split_ifs at h1 ⊢ <;> simp only [Prod.mk.injEq] <;> omega

/-- The reverse Jalali year split: any day number decomposes into a year and an
in-range day-of-year, consistently with `jalaliYearDays` and the leap pattern. -/
theorem jalaliSplitYear_rev (n jy dd : Int) (h : jalaliSplitYear n = (jy, dd)) :
    jalaliYearDays (jy - 979) + dd = n ∧ 0 ≤ dd ∧
      dd ≤ 364 + (if jalaliLeap (jy - 979) then 1 else 0) := by
  simp only [jalaliSplitYear, div12053, rem12053, div1461, rem1461, div365, rem365] at h
  obtain ⟨K, m, rfl, hm0, hm1⟩ : ∃ K m, n = 12053 * K + m ∧ 0 ≤ m ∧ m < 12053 :=
    ⟨n / 12053, n % 12053, by omega, by omega, by omega⟩
  have e1 : (12053 * K + m) / 12053 = K := by omega
  have e2 : (12053 * K + m) % 12053 = m := by omega
  rw [e1, e2] at h
  obtain ⟨a, b, rfl, hb0, hb1⟩ : ∃ a b, m = 1461 * a + b ∧ 0 ≤ b ∧ b < 1461 :=
    ⟨m / 1461, m % 1461, by omega, by omega, by omega⟩
  have e3 : (1461 * a + b) / 1461 = a := by omega
  have e4 : (1461 * a + b) % 1461 = b := by omega
  rw [e3, e4] at h
  have ha0 : 0 ≤ a := by omega
  have ha8 : a ≤ 8 := by omega
  simp only [jalaliYearDays, jalaliLeap, div33, rem33, div4]
  interval_cases a <;> split_ifs at h ⊢ <;> simp only [Prod.mk.injEq] at h <;> omega

end Ext.Date.JalaliConverter

namespace Ext.Date.JalaliConverter

/-- The reverse Gregorian year split: any day number decomposes into a year, an
in-range day-of-year, and a leap flag that matches the proleptic Gregorian leap
rule for the extracted year. -/
theorem gregSplitYear_rev (n gy dd : Int) (lp : Bool)
    (h : gregSplitYear n = (gy, dd, lp)) :
    gregYearDays (gy - 1600) + dd = n ∧ 0 ≤ dd ∧
      dd ≤ 364 + (if lp then 1 else 0) ∧
      (lp = true ↔
        ((gy - 1600) % 4 = 0 ∧ (gy - 1600) % 100 ≠ 0) ∨ (gy - 1600) % 400 = 0) := by
  simp only [gregSplitYear, gregSplitYear4, div146097, rem146097, div36524, rem36524,
    div1461, rem1461, div365, rem365] at h
  obtain ⟨K, m, rfl, hm0, hm1⟩ : ∃ K m, n = 146097 * K + m ∧ 0 ≤ m ∧ m < 146097 :=
    ⟨n / 146097, n % 146097, by omega, by omega, by omega⟩
  have e1 : (146097 * K + m) / 146097 = K := by omega
  have e2 : (146097 * K + m) % 146097 = m := by omega
  rw [e1, e2] at h
  simp only [gregYearDays, div4, div100, div400]
  split_ifs at h
  · -- century branch, century-day ≥ 365, 4-year tail ≥ 366
    obtain ⟨c, u, hcu, hu0, hu1⟩ : ∃ c u, m - 1 = 36524 * c + u ∧ 0 ≤ u ∧ u < 36524 :=
      ⟨(m - 1) / 36524, (m - 1) % 36524, by omega, by omega, by omega⟩
    have e3 : (m - 1) / 36524 = c := by omega
    have e4 : (m - 1) % 36524 = u := by omega
    simp only [e3, e4] at *
    obtain ⟨a, b, hab, hb0, hb1⟩ : ∃ a b, u + 1 = 1461 * a + b ∧ 0 ≤ b ∧ b < 1461 :=
      ⟨(u + 1) / 1461, (u + 1) % 1461, by omega, by omega, by omega⟩
    have e5 : (u + 1) / 1461 = a := by omega
    have e6 : (u + 1) % 1461 = b := by omega
    simp only [e5, e6] at *
    obtain ⟨v, f, hvf, hf0, hf1⟩ : ∃ v f, b - 1 = 365 * v + f ∧ 0 ≤ f ∧ f < 365 :=
      ⟨(b - 1) / 365, (b - 1) % 365, by omega, by omega, by omega⟩
    have e7 : (b - 1) / 365 = v := by omega
    have e8 : (b - 1) % 365 = f := by omega
    simp only [e7, e8] at *
    simp only [Prod.mk.injEq] at h
    obtain ⟨hy, hd, hl⟩ := h
    subst hy; subst hd; subst hl
    simp only [Bool.false_eq_true, false_iff]
    have hc : 1 ≤ c ∧ c ≤ 3 := by omega
    have ha : 0 ≤ a ∧ a ≤ 24 := by omega
    have hv : 1 ≤ v ∧ v ≤ 3 := by omega
    have k4 : (1600 + 400 * K + 100 * c + 4 * a + v - 1600 + 3) / 4 =
        100 * K + 25 * c + a + 1 := by omega
    have l100 : (1600 + 400 * K + 100 * c + 4 * a + v - 1600 + 99) / 100 =
        4 * K + c + 1 := by omega
    have n400 : (1600 + 400 * K + 100 * c + 4 * a + v - 1600 + 399) / 400 =
        K + 1 := by omega
    have m4 : (1600 + 400 * K + 100 * c + 4 * a + v - 1600) % 4 = v := by omega
    omega
  · -- century branch, century-day ≥ 365, 4-year tail < 366
    obtain ⟨c, u, hcu, hu0, hu1⟩ : ∃ c u, m - 1 = 36524 * c + u ∧ 0 ≤ u ∧ u < 36524 :=
      ⟨(m - 1) / 36524, (m - 1) % 36524, by omega, by omega, by omega⟩
    have e3 : (m - 1) / 36524 = c := by omega
    have e4 : (m - 1) % 36524 = u := by omega
    simp only [e3, e4] at *
    obtain ⟨a, b, hab, hb0, hb1⟩ : ∃ a b, u + 1 = 1461 * a + b ∧ 0 ≤ b ∧ b < 1461 :=
      ⟨(u + 1) / 1461, (u + 1) % 1461, by omega, by omega, by omega⟩
    have e5 : (u + 1) / 1461 = a := by omega
    have e6 : (u + 1) % 1461 = b := by omega
    simp only [e5, e6] at *
    simp only [Prod.mk.injEq] at h
    obtain ⟨hy, hd, hl⟩ := h
    subst hy; subst hd; subst hl
    simp only [eq_self_iff_true, true_iff, if_true]
    have hc : 1 ≤ c ∧ c ≤ 3 := by omega
    have ha : 1 ≤ a ∧ a ≤ 24 := by omega
    have k4 : (1600 + 400 * K + 100 * c + 4 * a - 1600 + 3) / 4 =
        100 * K + 25 * c + a := by omega
    have l100 : (1600 + 400 * K + 100 * c + 4 * a - 1600 + 99) / 100 =
        4 * K + c + 1 := by omega
    have n400 : (1600 + 400 * K + 100 * c + 4 * a - 1600 + 399) / 400 =
        K + 1 := by omega
    have m4 : (1600 + 400 * K + 100 * c + 4 * a - 1600) % 4 = 0 := by omega
    have m100 : (1600 + 400 * K + 100 * c + 4 * a - 1600) % 100 = 4 * a := by omega
    omega
  · -- century branch, century-day < 365, 4-year tail ≥ 366 (unreachable)
    obtain ⟨c, u, hcu, hu0, hu1⟩ : ∃ c u, m - 1 = 36524 * c + u ∧ 0 ≤ u ∧ u < 36524 :=
      ⟨(m - 1) / 36524, (m - 1) % 36524, by omega, by omega, by omega⟩
    have e3 : (m - 1) / 36524 = c := by omega
    have e4 : (m - 1) % 36524 = u := by omega
    simp only [e3, e4] at *
    have e9 : u % 1461 = u := by omega
    simp only [e9] at *
    omega
  · -- century branch, century-day < 365, 4-year tail < 366
    obtain ⟨c, u, hcu, hu0, hu1⟩ : ∃ c u, m - 1 = 36524 * c + u ∧ 0 ≤ u ∧ u < 36524 :=
      ⟨(m - 1) / 36524, (m - 1) % 36524, by omega, by omega, by omega⟩
    have e3 : (m - 1) / 36524 = c := by omega
    have e4 : (m - 1) % 36524 = u := by omega
    simp only [e3, e4] at *
    have e9 : u % 1461 = u := by omega
    have e10 : u / 1461 = 0 := by omega
    simp only [e9, e10] at *
    simp only [Prod.mk.injEq] at h
    obtain ⟨hy, hd, hl⟩ := h
    subst hy; subst hd; subst hl
    simp only [Bool.false_eq_true, false_iff]
    have hc : 1 ≤ c ∧ c ≤ 3 := by omega
    have k4 : (1600 + 400 * K + 100 * c + 4 * 0 - 1600 + 3) / 4 = 100 * K + 25 * c := by
      omega
    have l100 : (1600 + 400 * K + 100 * c + 4 * 0 - 1600 + 99) / 100 = 4 * K + c := by
      omega
    have n400 : (1600 + 400 * K + 100 * c + 4 * 0 - 1600 + 399) / 400 = K + 1 := by
      omega
    have m400 : (1600 + 400 * K + 100 * c + 4 * 0 - 1600) % 400 = 100 * c := by omega
    omega
  · -- first-century branch, 4-year tail ≥ 366
    obtain ⟨a, b, hab, hb0, hb1⟩ : ∃ a b, m = 1461 * a + b ∧ 0 ≤ b ∧ b < 1461 :=
      ⟨m / 1461, m % 1461, by omega, by omega, by omega⟩
    have e5 : m / 1461 = a := by omega
    have e6 : m % 1461 = b := by omega
    simp only [e5, e6] at *
    obtain ⟨v, f, hvf, hf0, hf1⟩ : ∃ v f, b - 1 = 365 * v + f ∧ 0 ≤ f ∧ f < 365 :=
      ⟨(b - 1) / 365, (b - 1) % 365, by omega, by omega, by omega⟩
    have e7 : (b - 1) / 365 = v := by omega
    have e8 : (b - 1) % 365 = f := by omega
    simp only [e7, e8] at *
    simp only [Prod.mk.injEq] at h
    obtain ⟨hy, hd, hl⟩ := h
    subst hy; subst hd; subst hl
    simp only [Bool.false_eq_true, false_iff]
    have ha : 0 ≤ a ∧ a ≤ 24 := by omega
    have hv : 1 ≤ v ∧ v ≤ 3 := by omega
    have k4 : (1600 + 400 * K + 4 * a + v - 1600 + 3) / 4 = 100 * K + a + 1 := by omega
    have l100 : (1600 + 400 * K + 4 * a + v - 1600 + 99) / 100 = 4 * K + 1 := by omega
    have n400 : (1600 + 400 * K + 4 * a + v - 1600 + 399) / 400 = K + 1 := by omega
    have m4 : (1600 + 400 * K + 4 * a + v - 1600) % 4 = v := by omega
    omega
  · -- first-century branch, 4-year tail < 366
    obtain ⟨a, b, hab, hb0, hb1⟩ : ∃ a b, m = 1461 * a + b ∧ 0 ≤ b ∧ b < 1461 :=
      ⟨m / 1461, m % 1461, by omega, by omega, by omega⟩
    have e5 : m / 1461 = a := by omega
    have e6 : m % 1461 = b := by omega
    simp only [e5, e6] at *
    simp only [Prod.mk.injEq] at h
    obtain ⟨hy, hd, hl⟩ := h
    subst hy; subst hd; subst hl
    simp only [eq_self_iff_true, true_iff, if_true]
    have ha : 0 ≤ a ∧ a ≤ 24 := by omega
    have k4 : (1600 + 400 * K + 4 * a - 1600 + 3) / 4 = 100 * K + a := by omega
    have m4 : (1600 + 400 * K + 4 * a - 1600) % 4 = 0 := by omega
    have m100 : (1600 + 400 * K + 4 * a - 1600) % 100 = 4 * a := by omega
    have m400 : (1600 + 400 * K + 4 * a - 1600) % 400 = 4 * a := by omega
    have l100a : (1600 + 400 * K + 4 * a - 1600 + 99) / 100 = 4 * K +
        (4 * a + 99) / 100 := by omega
    have n400a : (1600 + 400 * K + 4 * a - 1600 + 399) / 400 = K +
        (4 * a + 399) / 400 := by omega
    omega

/-- Number of days in internal Gregorian year `y` per `gregYearDays`:
365, plus one in a proleptic Gregorian leap year. -/
theorem gregYearDays_succ (y : Int) :
    gregYearDays (y + 1) = gregYearDays y + 365 +
      (if (y % 4 = 0 ∧ y % 100 ≠ 0) ∨ y % 400 = 0 then 1 else 0) := by
  simp only [gregYearDays, div4, div100, div400]
  split_ifs <;> omega

/-- The day-number accumulation is monotone in the year. -/
theorem gregYearDays_mono (y1 y2 : Int) (h : y1 ≤ y2) :
    gregYearDays y1 ≤ gregYearDays y2 := by
  simp only [gregYearDays, div4, div100, div400]
  omega

/-- The Jalali day-number accumulation is monotone in the year. -/
theorem jalaliYearDays_mono (y1 y2 : Int) (h : y1 ≤ y2) :
    jalaliYearDays y1 ≤ jalaliYearDays y2 := by
  simp only [jalaliYearDays, div33, rem33, div4]
  omega

/-- The forward Gregorian year split, derived from the reverse split by
uniqueness of the year decomposition. -/
theorem gregSplitYear_fwd (y dd : Int) (h0 : 0 ≤ dd)
    (h1 : dd ≤ 364 + (if (y % 4 = 0 ∧ y % 100 ≠ 0) ∨ y % 400 = 0 then 1 else 0)) :
    gregSplitYear (gregYearDays y + dd) =
      (1600 + y, dd, decide ((y % 4 = 0 ∧ y % 100 ≠ 0) ∨ y % 400 = 0)) := by
  obtain ⟨⟨gy', dd', lp'⟩, hEq⟩ : ∃ p, gregSplitYear (gregYearDays y + dd) = p := ⟨_, rfl⟩
  rw [hEq]
  obtain ⟨hid, hd0, hdub, hlp⟩ := gregSplitYear_rev _ _ _ _ hEq
  have hsucc' := gregYearDays_succ (gy' - 1600)
  have hsuccy := gregYearDays_succ y
  have hyy : gy' - 1600 = y := by
    rcases lt_trichotomy (gy' - 1600) y with hlt | hEq2 | hgt
    · exfalso
      have h3 := gregYearDays_mono (gy' - 1600 + 1) y (by omega)
      clear hsuccy h1
      cases lp' <;>
        simp only [Bool.false_eq_true, false_iff, eq_self_iff_true, true_iff,
          if_true, if_false] at hlp hdub <;>
        split_ifs at hsucc' <;> omega
    · exact hEq2
    · exfalso
      have h3 := gregYearDays_mono (y + 1) (gy' - 1600) (by omega)
      clear hsucc' hdub hlp
      split_ifs at hsuccy h1 <;> omega
  rw [hyy] at hid hlp
  have hdd : dd' = dd := by omega
  subst hdd
  have hyy' : gy' = 1600 + y := by omega
  subst hyy'
  have hlp' : lp' = decide ((y % 4 = 0 ∧ y % 100 ≠ 0) ∨ y % 400 = 0) := by
    cases lp'
    · simp only [Bool.false_eq_true, false_iff] at hlp
      exact (decide_eq_false hlp).symm
    · simp only [eq_self_iff_true, true_iff] at hlp
      exact (decide_eq_true hlp).symm
  rw [hlp']

set_option maxRecDepth 40000 in
/-- The Jalali month scan recovers month and day from a prefix sum plus offset. -/
theorem jalali_monthScan_fwd : ∀ m : Nat, m < 12 → ∀ d : Nat, d < 31 →
    (d : Int) < jalaliDaysInMonth.getD m 0 + (if m = 11 then 1 else 0) →
    monthScan (jalaliDaysInMonth.take 11) ((jalaliDaysInMonth.take m).sum + (d : Int)) =
      (m, (d : Int)) := by decide

set_option maxRecDepth 40000 in
/-- The Jalali month scan of an in-range day-of-year lands in a month with an
in-range remainder whose prefix sum reconstructs the day-of-year. -/
theorem jalali_monthScan_rev : ∀ dd : Nat, dd ≤ 365 →
    (monthScan (jalaliDaysInMonth.take 11) (dd : Int)).1 ≤ 11 ∧
    (jalaliDaysInMonth.take (monthScan (jalaliDaysInMonth.take 11) (dd : Int)).1).sum
      + (monthScan (jalaliDaysInMonth.take 11) (dd : Int)).2 = (dd : Int) ∧
    0 ≤ (monthScan (jalaliDaysInMonth.take 11) (dd : Int)).2 ∧
    (monthScan (jalaliDaysInMonth.take 11) (dd : Int)).2 <
      jalaliDaysInMonth.getD (monthScan (jalaliDaysInMonth.take 11) (dd : Int)).1 0
        + (if (monthScan (jalaliDaysInMonth.take 11) (dd : Int)).1 = 11 then 1 else 0) := by
  decide

set_option maxRecDepth 40000 in
/-- On a valid Jalali month and day the day-of-year stays within the year. -/
theorem jalali_dayOfYear_bound : ∀ lp : Bool, ∀ m : Nat, m < 12 → ∀ d : Nat, d < 31 →
    (d : Int) < jalaliDaysInMonth.getD m 0 + (if m = 11 ∧ lp then 1 else 0) →
    (jalaliDaysInMonth.take m).sum + (d : Int) ≤ 364 + (if lp then 1 else 0) := by decide

set_option maxRecDepth 40000 in
/-- The Gregorian month scan recovers month and day from an adjusted prefix sum
plus offset. -/
theorem greg_monthScan_fwd : ∀ lp : Bool, ∀ m : Nat, m < 12 → ∀ d : Nat, d < 31 →
    (d : Int) < gregorianDaysInMonth.getD m 0 + (if m = 1 ∧ lp then 1 else 0) →
    gregMonthScan lp gregorianDaysInMonth 0
        ((gregorianDaysInMonth.take m).sum + (if 2 ≤ m ∧ lp then 1 else 0) + (d : Int)) =
      some (m, (d : Int)) := by decide

set_option maxRecDepth 40000 in
/-- On a valid Gregorian month and day the day-of-year stays within the year. -/
theorem greg_dayOfYear_bound : ∀ lp : Bool, ∀ m : Nat, m < 12 → ∀ d : Nat, d < 31 →
    (d : Int) < gregorianDaysInMonth.getD m 0 + (if m = 1 ∧ lp then 1 else 0) →
    (gregorianDaysInMonth.take m).sum + (if 2 ≤ m ∧ lp then 1 else 0) + (d : Int) ≤
      364 + (if lp then 1 else 0) := by decide

set_option maxRecDepth 80000 in
/-- The Gregorian month scan of an in-range day-of-year succeeds and lands in a
month with an in-range remainder whose adjusted prefix sum reconstructs the
day-of-year. -/
theorem greg_monthScan_rev : ∀ lp : Bool, ∀ dd : Nat, dd ≤ 365 →
    (dd : Int) ≤ 364 + (if lp then 1 else 0) →
    (gregMonthScan lp gregorianDaysInMonth 0 (dd : Int)).isSome = true ∧
    ((gregMonthScan lp gregorianDaysInMonth 0 (dd : Int)).getD (12, 0)).1 < 12 ∧
    (gregorianDaysInMonth.take
        ((gregMonthScan lp gregorianDaysInMonth 0 (dd : Int)).getD (12, 0)).1).sum
      + (if 2 ≤ ((gregMonthScan lp gregorianDaysInMonth 0 (dd : Int)).getD (12, 0)).1 ∧ lp
          then 1 else 0)
      + ((gregMonthScan lp gregorianDaysInMonth 0 (dd : Int)).getD (12, 0)).2 = (dd : Int) ∧
    0 ≤ ((gregMonthScan lp gregorianDaysInMonth 0 (dd : Int)).getD (12, 0)).2 ∧
    ((gregMonthScan lp gregorianDaysInMonth 0 (dd : Int)).getD (12, 0)).2 <
      gregorianDaysInMonth.getD
          ((gregMonthScan lp gregorianDaysInMonth 0 (dd : Int)).getD (12, 0)).1 0
        + (if ((gregMonthScan lp gregorianDaysInMonth 0 (dd : Int)).getD (12, 0)).1 = 1 ∧ lp
            then 1 else 0) := by
  decide

/-- Computation rule for `jalaliDayNo` on an in-range month. -/
theorem jalaliDayNo_mk (y m d : Int) (mi : Nat) (hm : m - 1 = (mi : Int)) (hmi : mi ≤ 12) :
    jalaliDayNo (y, m, d) =
      some (jalaliYearDays (y - 979) + (jalaliDaysInMonth.take mi).sum + (d - 1)) := by
  simp only [jalaliDayNo, sumFirstMonths]
  rw [hm, Int.toNat_natCast]
  rw [if_pos (show mi ≤ jalaliDaysInMonth.length from by
    have hlen : jalaliDaysInMonth.length = 12 := rfl
    omega)]
  simp only [Option.map_some']

/-- Computation rule for `gregDayNo` on an in-range month. -/
theorem gregDayNo_mk (y m d : Int) (mi : Nat) (hm : m - 1 = (mi : Int)) (hmi : mi ≤ 12) :
    gregDayNo (y, m, d) =
      some (gregYearDays (y - 1600) + (gregorianDaysInMonth.take mi).sum
        + (if 1 < (mi : Int) ∧ gregLeap (y - 1600) then 1 else 0) + (d - 1)) := by
  simp only [gregDayNo, sumFirstMonths]
  rw [hm, Int.toNat_natCast]
  rw [if_pos (show mi ≤ gregorianDaysInMonth.length from by
    have hlen : gregorianDaysInMonth.length = 12 := rfl
    omega)]
  simp only [Option.map_some']

/-- Recomposing the Jalali triple extracted from any day number gives back that
day number: the Jalali decomposition is a section of the day-number map. -/
theorem jalaliDayNo_jalaliFromDayNo (n : Int) :
    jalaliDayNo (jalaliFromDayNo n) = some n := by
  obtain ⟨⟨jy, dd⟩, hsp⟩ : ∃ p, jalaliSplitYear n = p := ⟨_, rfl⟩
  obtain ⟨hid, hd0, hdub⟩ := jalaliSplitYear_rev n jy dd hsp
  have hdub' : dd ≤ 365 := by split_ifs at hdub <;> omega
  obtain ⟨dn, rfl⟩ : ∃ dn : Nat, (dn : Int) = dd := ⟨dd.toNat, by omega⟩
  obtain ⟨hm11, hsum, hr0, hrub⟩ := jalali_monthScan_rev dn (by omega)
  obtain ⟨⟨mi, r⟩, hsc⟩ : ∃ p, monthScan (jalaliDaysInMonth.take 11) ((dn : Nat) : Int) = p :=
    ⟨_, rfl⟩
  rw [hsc] at hm11 hsum hr0 hrub
  dsimp only at hm11 hsum hr0 hrub
  simp only [jalaliFromDayNo, hsp, hsc]
  rw [jalaliDayNo_mk jy ((mi : Int) + 1) (r + 1) mi (by ring) (by omega)]
  simp only [Option.some.injEq]
  omega

/-- Recomposing the Gregorian triple extracted from any day number succeeds and
gives back that day number. -/
theorem gregDayNo_gregFromDayNo (n : Int) :
    ∃ g, gregFromDayNo n = some g ∧ gregDayNo g = some n := by
  obtain ⟨⟨gy, dd, lp⟩, hsp⟩ : ∃ p, gregSplitYear n = p := ⟨_, rfl⟩
  obtain ⟨hid, hd0, hdub, hlp⟩ := gregSplitYear_rev n gy dd lp hsp
  have hdub' : dd ≤ 365 := by split_ifs at hdub <;> omega
  obtain ⟨dn, rfl⟩ : ∃ dn : Nat, (dn : Int) = dd := ⟨dd.toNat, by omega⟩
  obtain ⟨hS, hm12, hsum, hr0, hrub⟩ := greg_monthScan_rev lp dn (by omega) hdub
  obtain ⟨⟨mi, r⟩, hsc⟩ :
      ∃ p, gregMonthScan lp gregorianDaysInMonth 0 ((dn : Nat) : Int) = some p :=
    Option.isSome_iff_exists.mp hS
  rw [hsc] at hm12 hsum hr0 hrub
  simp only [Option.getD_some] at hm12 hsum hr0 hrub
  refine ⟨(gy, (mi : Int) + 1, r + 1), ?_, ?_⟩
  · simp only [gregFromDayNo, hsp, hsc, Option.map_some']
  · rw [gregDayNo_mk gy ((mi : Int) + 1) (r + 1) mi (by ring) (by omega)]
    simp only [Option.some.injEq]
    have hadj : (if 1 < (mi : Int) ∧ gregLeap (gy - 1600) then (1 : Int) else 0) =
        (if 2 ≤ mi ∧ lp then 1 else 0) := by
      simp only [gregLeap_iff]
      cases lp
      · simp only [Bool.false_eq_true, false_iff] at hlp
        rw [if_neg (by tauto), if_neg (by simp)]
      · simp only [eq_self_iff_true, true_iff] at hlp
        by_cases hm2 : 2 ≤ mi
        · rw [if_pos ⟨by omega, hlp⟩, if_pos ⟨hm2, rfl⟩]
        · rw [if_neg (by omega), if_neg (by tauto)]
    rw [hadj]
    omega

/-- Calendar-valid Jalali triples: 1-based month in `1..12` and day within the
month length, Esfand having 30 days exactly in years satisfying the 33-year
leap pattern `jalaliLeap`. -/
def jalaliCalValid (j : Int × Int × Int) : Prop :=
  1 ≤ j.2.1 ∧ j.2.1 ≤ 12 ∧ 1 ≤ j.2.2 ∧
    j.2.2 ≤ jalaliDaysInMonth.getD (j.2.1 - 1).toNat 0 +
      (if j.2.1 = 12 ∧ jalaliLeap (j.1 - 979) then 1 else 0)

instance (j : Int × Int × Int) : Decidable (jalaliCalValid j) := by
  unfold jalaliCalValid; infer_instance

/-- Calendar-valid proleptic Gregorian triples: 1-based month in `1..12` and day
within the month length, February having 29 days exactly in `gregLeap` years. -/
def gregCalValid (g : Int × Int × Int) : Prop :=
  1 ≤ g.2.1 ∧ g.2.1 ≤ 12 ∧ 1 ≤ g.2.2 ∧
    g.2.2 ≤ gregorianDaysInMonth.getD (g.2.1 - 1).toNat 0 +
      (if g.2.1 = 2 ∧ gregLeap (g.1 - 1600) then 1 else 0)

instance (g : Int × Int × Int) : Decidable (gregCalValid g) := by
  unfold gregCalValid; infer_instance

set_option maxRecDepth 40000 in
/-- Day-of-year bound for a day below the 30-day-Esfand month length. -/
theorem jalali_dayOfYear_le365 : ∀ m : Nat, m < 12 → ∀ d : Nat, d < 31 →
    (d : Int) < jalaliDaysInMonth.getD m 0 + (if m = 11 then 1 else 0) →
    (jalaliDaysInMonth.take m).sum + (d : Int) ≤ 365 := by decide

set_option maxRecDepth 40000 in
/-- Day-of-year bound for a day below the plain month length. -/
theorem jalali_dayOfYear_le364 : ∀ m : Nat, m < 12 → ∀ d : Nat, d < 31 →
    (d : Int) < jalaliDaysInMonth.getD m 0 →
    (jalaliDaysInMonth.take m).sum + (d : Int) ≤ 364 := by decide

set_option maxRecDepth 40000 in
/-- Day-of-year bound for a day below the 29-day-February month length. -/
theorem greg_dayOfYear_le365 : ∀ m : Nat, m < 12 → ∀ d : Nat, d < 31 →
    (d : Int) < gregorianDaysInMonth.getD m 0 + (if m = 1 then 1 else 0) →
    (gregorianDaysInMonth.take m).sum + (if 2 ≤ m then (1 : Int) else 0) + (d : Int) ≤
      365 := by decide

set_option maxRecDepth 40000 in
/-- Day-of-year bound for a day below the plain month length. -/
theorem greg_dayOfYear_le364 : ∀ m : Nat, m < 12 → ∀ d : Nat, d < 31 →
    (d : Int) < gregorianDaysInMonth.getD m 0 →
    (gregorianDaysInMonth.take m).sum + (d : Int) ≤ 364 := by decide

set_option maxRecDepth 40000 in
/-- Prefix sums of the month tables are nonnegative. -/
theorem take_sum_nonneg : ∀ m : Nat, m < 12 →
    0 ≤ (jalaliDaysInMonth.take m).sum ∧ 0 ≤ (gregorianDaysInMonth.take m).sum := by decide

/-- A calendar-valid Jalali triple has a day number, and decomposing that day
number gives back the triple. -/
theorem jalaliFromDayNo_jalaliDayNo (y m d : Int) (h : jalaliCalValid (y, m, d)) :
    jalaliDayNo (y, m, d) =
        some (jalaliYearDays (y - 979) +
          (jalaliDaysInMonth.take (m - 1).toNat).sum + (d - 1)) ∧
      jalaliFromDayNo (jalaliYearDays (y - 979) +
          (jalaliDaysInMonth.take (m - 1).toNat).sum + (d - 1)) = (y, m, d) := by
  simp only [jalaliCalValid] at h
  obtain ⟨h1, h2, h3, h4⟩ := h
  obtain ⟨mi, hmi⟩ : ∃ mi : Nat, m - 1 = (mi : Int) := ⟨(m - 1).toNat, by omega⟩
  obtain ⟨di, hdi⟩ : ∃ di : Nat, d - 1 = (di : Int) := ⟨(d - 1).toNat, by omega⟩
  have hmiT : (m - 1).toNat = mi := by omega
  have hmi12 : mi < 12 := by omega
  rw [hmiT] at h4 ⊢
  have hgetle : jalaliDaysInMonth.getD mi 0 ≤ 31 := by
    have hlen : ∀ k : Nat, k < 12 → jalaliDaysInMonth.getD k 0 ≤ 31 := by decide
    exact hlen mi hmi12
  have hget11 : jalaliDaysInMonth.getD 11 0 = 29 := by decide
  have hdi31 : di < 31 := by
    by_cases hc : m = 12 ∧ jalaliLeap (y - 979)
    · have hc1 : m = 12 := hc.1
      rw [if_pos hc] at h4
      have hmi11 : mi = 11 := by omega
      rw [hmi11, hget11] at h4
      omega
    · rw [if_neg hc] at h4
      omega
  have hcond : (di : Int) <
      jalaliDaysInMonth.getD mi 0 + (if mi = 11 then 1 else 0) := by
    by_cases hc : m = 12 ∧ jalaliLeap (y - 979)
    · have hc1 : m = 12 := hc.1
      rw [if_pos hc] at h4
      split_ifs <;> omega
    · rw [if_neg hc] at h4
      split_ifs <;> omega
  have hddU : (jalaliDaysInMonth.take mi).sum + (di : Int) ≤
      364 + (if jalaliLeap (y - 979) then 1 else 0) := by
    by_cases hL : jalaliLeap (y - 979)
    · rw [if_pos hL]
      have := jalali_dayOfYear_le365 mi hmi12 di hdi31 hcond
      omega
    · rw [if_neg hL]
      rw [if_neg (fun hc => hL hc.2)] at h4
      have hcond' : (di : Int) < jalaliDaysInMonth.getD mi 0 := by omega
      have := jalali_dayOfYear_le364 mi hmi12 di hdi31 hcond'
      omega
  have hdd0 : 0 ≤ (jalaliDaysInMonth.take mi).sum + (di : Int) := by
    have := (take_sum_nonneg mi hmi12).1
    omega
  constructor
  · exact jalaliDayNo_mk y m d mi hmi (by omega)
  · have hassoc : jalaliYearDays (y - 979) + (jalaliDaysInMonth.take mi).sum + (d - 1) =
        jalaliYearDays (y - 979) + ((jalaliDaysInMonth.take mi).sum + (di : Int)) := by
      omega
    rw [hassoc]
    have hfwd := jalaliSplitYear_fwd (y - 979)
      ((jalaliDaysInMonth.take mi).sum + (di : Int)) hdd0 hddU
    simp only [jalaliFromDayNo]
    rw [hfwd]
    dsimp only
    rw [jalali_monthScan_fwd mi hmi12 di hdi31 hcond]
    dsimp only
    simp only [Prod.mk.injEq]
    refine ⟨by omega, by omega, by omega⟩

/-- A calendar-valid Gregorian triple has a day number, and decomposing that day
number succeeds and gives back the triple. -/
theorem gregFromDayNo_gregDayNo (y m d : Int) (h : gregCalValid (y, m, d)) :
    ∃ N, gregDayNo (y, m, d) = some N ∧ gregFromDayNo N = some (y, m, d) := by
  simp only [gregCalValid] at h
  obtain ⟨h1, h2, h3, h4⟩ := h
  obtain ⟨mi, hmi⟩ : ∃ mi : Nat, m - 1 = (mi : Int) := ⟨(m - 1).toNat, by omega⟩
  obtain ⟨di, hdi⟩ : ∃ di : Nat, d - 1 = (di : Int) := ⟨(d - 1).toNat, by omega⟩
  have hmiT : (m - 1).toNat = mi := by omega
  have hmi12 : mi < 12 := by omega
  rw [hmiT] at h4
  have hgetle : gregorianDaysInMonth.getD mi 0 ≤ 31 := by
    have hlen : ∀ k : Nat, k < 12 → gregorianDaysInMonth.getD k 0 ≤ 31 := by decide
    exact hlen mi hmi12
  have hget1 : gregorianDaysInMonth.getD 1 0 = 28 := by decide
  have hdi31 : di < 31 := by
    by_cases hc : m = 2 ∧ gregLeap (y - 1600)
    · have hc1 : m = 2 := hc.1
      rw [if_pos hc] at h4
      have hmi1 : mi = 1 := by omega
      rw [hmi1, hget1] at h4
      omega
    · rw [if_neg hc] at h4
      omega
  have hlp : decide ((y - 1600) % 4 = 0 ∧ (y - 1600) % 100 ≠ 0 ∨ (y - 1600) % 400 = 0)
      = true ↔ ((y - 1600) % 4 = 0 ∧ (y - 1600) % 100 ≠ 0 ∨ (y - 1600) % 400 = 0) :=
    by simp only [decide_eq_true_eq]
  have hLiff : gregLeap (y - 1600) ↔
      decide ((y - 1600) % 4 = 0 ∧ (y - 1600) % 100 ≠ 0 ∨ (y - 1600) % 400 = 0) = true :=
    (gregLeap_iff (y - 1600)).trans hlp.symm
  set lp : Bool := decide ((y - 1600) % 4 = 0 ∧ (y - 1600) % 100 ≠ 0 ∨ (y - 1600) % 400 = 0)
    with hlpdef
  have hcond : (di : Int) < gregorianDaysInMonth.getD mi 0 +
      (if mi = 1 ∧ lp then 1 else 0) := by
    by_cases hc : m = 2 ∧ gregLeap (y - 1600)
    · rw [if_pos hc] at h4
      rw [if_pos ⟨by omega, hLiff.mp hc.2⟩]
      omega
    · rw [if_neg hc] at h4
      split_ifs <;> omega
  have hadj : (if 1 < (mi : Int) ∧ gregLeap (y - 1600) then (1 : Int) else 0)
      = (if 2 ≤ mi ∧ lp then 1 else 0) := by
    by_cases hm2 : 2 ≤ mi
    · have hm2' : 1 < (mi : Int) := by omega
      by_cases hL : gregLeap (y - 1600)
      · rw [if_pos ⟨hm2', hL⟩, if_pos ⟨hm2, hLiff.mp hL⟩]
      · rw [if_neg (fun hx => hL hx.2), if_neg (fun hx => hL (hLiff.mpr hx.2))]
    · have hm2' : ¬(1 < (mi : Int)) := by omega
      rw [if_neg (fun hx => hm2' hx.1), if_neg (fun hx => hm2 hx.1)]
  have h01 : 0 ≤ (if 2 ≤ mi ∧ lp then (1 : Int) else 0) ∧
      (if 2 ≤ mi ∧ lp then (1 : Int) else 0) ≤ 1 := by
    split_ifs <;> omega
  have hdd0 : 0 ≤ (gregorianDaysInMonth.take mi).sum +
      (if 2 ≤ mi ∧ lp then (1 : Int) else 0) + (di : Int) := by
    have := (take_sum_nonneg mi hmi12).2
    omega
  have hddU : (gregorianDaysInMonth.take mi).sum +
      (if 2 ≤ mi ∧ lp then (1 : Int) else 0) + (di : Int) ≤
      364 + (if (y - 1600) % 4 = 0 ∧ (y - 1600) % 100 ≠ 0 ∨ (y - 1600) % 400 = 0
        then 1 else 0) := by
    by_cases hL : gregLeap (y - 1600)
    · have hlpt : lp = true := hLiff.mp hL
      rw [if_pos ((gregLeap_iff (y - 1600)).mp hL)]
      have e1 : (if 2 ≤ mi ∧ lp then (1 : Int) else 0) = (if 2 ≤ mi then 1 else 0) := by
        rw [hlpt]
        simp
      have e2 : (di : Int) < gregorianDaysInMonth.getD mi 0 + (if mi = 1 then 1 else 0) := by
        rw [hlpt] at hcond
        simpa using hcond
      have := greg_dayOfYear_le365 mi hmi12 di hdi31 e2
      omega
    · have hlpf : lp = false := by
        rcases Bool.eq_false_or_eq_true lp with hx | hx
        · exact absurd (hLiff.mpr hx) hL
        · exact hx
      rw [if_neg (fun hx => hL ((gregLeap_iff (y - 1600)).mpr hx))]
      have e1 : (if 2 ≤ mi ∧ lp then (1 : Int) else 0) = 0 := by
        rw [hlpf]
        simp
      have e2 : (di : Int) < gregorianDaysInMonth.getD mi 0 := by
        rw [hlpf] at hcond
        simpa using hcond
      have := greg_dayOfYear_le364 mi hmi12 di hdi31 e2
      omega
  have hfwd := gregSplitYear_fwd (y - 1600)
    ((gregorianDaysInMonth.take mi).sum + (if 2 ≤ mi ∧ lp then (1 : Int) else 0) + (di : Int))
    hdd0 hddU
  refine ⟨gregYearDays (y - 1600) + (gregorianDaysInMonth.take mi).sum
      + (if 1 < (mi : Int) ∧ gregLeap (y - 1600) then 1 else 0) + (d - 1), ?_, ?_⟩
  · have := gregDayNo_mk y m d mi hmi (by omega)
    exact this
  · have hassoc : gregYearDays (y - 1600) + (gregorianDaysInMonth.take mi).sum
        + (if 1 < (mi : Int) ∧ gregLeap (y - 1600) then 1 else 0) + (d - 1) =
        gregYearDays (y - 1600) + ((gregorianDaysInMonth.take mi).sum
          + (if 2 ≤ mi ∧ lp then (1 : Int) else 0) + (di : Int)) := by
      rw [hadj]
      omega
    rw [hassoc]
    simp only [gregFromDayNo]
    rw [hfwd]
    dsimp only
    rw [greg_monthScan_fwd lp mi hmi12 di hdi31 hcond]
    simp only [Option.map_some', Option.some.injEq, Prod.mk.injEq]
    refine ⟨by omega, by omega, by omega⟩

end Ext.Date.JalaliConverter


namespace Ext.Date.JalaliConverter

/-- The Jalali → Gregorian → Jalali round trip is the identity on
calendar-valid Jalali triples. -/
theorem jalali_round_trip (y m d : Int) (h : jalaliCalValid (y, m, d)) :
    (jalaliToGregorian (y, m, d)).bind gregorianToJalali = some (y, m, d) := by
  obtain ⟨hDN, hFD⟩ := jalaliFromDayNo_jalaliDayNo y m d h
  obtain ⟨N, hN⟩ : ∃ N, jalaliYearDays (y - 979) +
      (jalaliDaysInMonth.take (m - 1).toNat).sum + (d - 1) = N := ⟨_, rfl⟩
  rw [hN] at hDN hFD
  obtain ⟨g, hg1, hg2⟩ := gregDayNo_gregFromDayNo (N + 79)
  simp only [jalaliToGregorian, hDN, Option.some_bind]
  rw [hg1]
  simp only [Option.some_bind, gregorianToJalali, hg2, Option.map_some']
  rw [show N + 79 - 79 = N from by ring, hFD]

/-- The Gregorian → Jalali → Gregorian round trip is the identity on
calendar-valid Gregorian triples. -/
theorem greg_round_trip (y m d : Int) (h : gregCalValid (y, m, d)) :
    (gregorianToJalali (y, m, d)).bind jalaliToGregorian = some (y, m, d) := by
  obtain ⟨N, hDN, hFD⟩ := gregFromDayNo_gregDayNo y m d h
  simp only [gregorianToJalali, hDN, Option.map_some', Option.some_bind]
  have hC := jalaliDayNo_jalaliFromDayNo (N - 79)
  simp only [jalaliToGregorian, hC, Option.some_bind]
  rw [show N - 79 + 79 = N from by ring, hFD]

/-- The Gregorian decomposition always succeeds. -/
theorem gregFromDayNo_isSome (n : Int) : (gregFromDayNo n).isSome = true := by
  obtain ⟨g, hg1, _⟩ := gregDayNo_gregFromDayNo n
  rw [hg1]
  rfl

/-- `gregorianToJalali` succeeds whenever the month loop stays in the table. -/
theorem gregorianToJalali_isSome (y m d : Int) (hm : m ≤ 13) :
    (gregorianToJalali (y, m, d)).isSome = true := by
  simp only [gregorianToJalali, gregDayNo, sumFirstMonths]
  rw [if_pos (show (m - 1).toNat ≤ gregorianDaysInMonth.length from by
    have hlen : gregorianDaysInMonth.length = 12 := rfl
    omega)]
  simp only [Option.map_some', Option.isSome_some]

/-- `jalaliToGregorian` succeeds whenever the month loop stays in the table. -/
theorem jalaliToGregorian_isSome (y m d : Int) (hm : m ≤ 13) :
    (jalaliToGregorian (y, m, d)).isSome = true := by
  simp only [jalaliToGregorian, jalaliDayNo, sumFirstMonths]
  rw [if_pos (show (m - 1).toNat ≤ jalaliDaysInMonth.length from by
    have hlen : jalaliDaysInMonth.length = 12 := rfl
    omega)]
  simp only [Option.map_some', Option.some_bind]
  exact gregFromDayNo_isSome _

/-- Every triple produced by the Jalali decomposition is calendar-valid. -/
theorem jalaliFromDayNo_calValid (n : Int) : jalaliCalValid (jalaliFromDayNo n) := by
  obtain ⟨⟨jy, dd⟩, hsp⟩ : ∃ p, jalaliSplitYear n = p := ⟨_, rfl⟩
  obtain ⟨hid, hd0, hdub⟩ := jalaliSplitYear_rev n jy dd hsp
  have hdub' : dd ≤ 365 := by split_ifs at hdub <;> omega
  obtain ⟨dn, rfl⟩ : ∃ dn : Nat, (dn : Int) = dd := ⟨dd.toNat, by omega⟩
  obtain ⟨hm11, hsum, hr0, hrub⟩ := jalali_monthScan_rev dn (by omega)
  obtain ⟨⟨mi, r⟩, hsc⟩ : ∃ p, monthScan (jalaliDaysInMonth.take 11) ((dn : Nat) : Int) = p :=
    ⟨_, rfl⟩
  rw [hsc] at hm11 hsum hr0 hrub
  dsimp only at hm11 hsum hr0 hrub
  simp only [jalaliFromDayNo, hsp, hsc, jalaliCalValid]
  have hT : ((mi : Int) + 1 - 1).toNat = mi := by omega
  rw [hT]
  refine ⟨by omega, by omega, by omega, ?_⟩
  by_cases h11 : mi = 11
  · subst h11
    have hs11 : (jalaliDaysInMonth.take 11).sum = (336 : Int) := by decide
    have hg11 : jalaliDaysInMonth.getD 11 0 = (29 : Int) := by decide
    rw [hg11]
    rw [hg11] at hrub
    by_cases hr29 : r ≤ 28
    · split_ifs <;> omega
    · have hr29' : r = 29 := by split_ifs at hrub <;> omega
      have hL : jalaliLeap (jy - 979) := by
        by_contra hnl
        rw [if_neg hnl] at hdub
        omega
      rw [if_pos ⟨by norm_num, hL⟩]
      omega
  · rw [if_neg (fun hc => (show ¬((mi : Int) + 1 = 12) from by omega) hc.1)]
    rw [if_neg h11] at hrub
    omega

/-- Every triple produced by the Gregorian decomposition is calendar-valid. -/
theorem gregFromDayNo_calValid (n : Int) (g : Int × Int × Int)
    (h : gregFromDayNo n = some g) : gregCalValid g := by
  obtain ⟨⟨gy, dd, lp⟩, hsp⟩ : ∃ p, gregSplitYear n = p := ⟨_, rfl⟩
  obtain ⟨hid, hd0, hdub, hlp⟩ := gregSplitYear_rev n gy dd lp hsp
  have hdub' : dd ≤ 365 := by split_ifs at hdub <;> omega
  obtain ⟨dn, rfl⟩ : ∃ dn : Nat, (dn : Int) = dd := ⟨dd.toNat, by omega⟩
  obtain ⟨hS, hm12, hsum, hr0, hrub⟩ := greg_monthScan_rev lp dn (by omega) hdub
  obtain ⟨⟨mi, r⟩, hsc⟩ :
      ∃ p, gregMonthScan lp gregorianDaysInMonth 0 ((dn : Nat) : Int) = some p :=
    Option.isSome_iff_exists.mp hS
  rw [hsc] at hm12 hsum hr0 hrub
  simp only [Option.getD_some] at hm12 hsum hr0 hrub
  simp only [gregFromDayNo, hsp, hsc, Option.map_some', Option.some.injEq] at h
  subst h
  simp only [gregCalValid]
  have hT : ((mi : Int) + 1 - 1).toNat = mi := by omega
  rw [hT]
  refine ⟨by omega, by omega, by omega, ?_⟩
  by_cases h1 : mi = 1
  · subst h1
    have hg1 : gregorianDaysInMonth.getD 1 0 = (28 : Int) := by decide
    rw [hg1]
    rw [hg1] at hrub
    by_cases hL : gregLeap (gy - 1600)
    · rw [if_pos ⟨by norm_num, hL⟩]
      split_ifs at hrub <;> omega
    · have hlpf : lp = false := by
        rcases Bool.eq_false_or_eq_true lp with hx | hx
        · exact absurd ((gregLeap_iff (gy - 1600)).mpr (hlp.mp hx)) hL
        · exact hx
      rw [if_neg (fun hc => hL hc.2)]
      rw [hlpf] at hrub
      simp only [Bool.false_eq_true, and_false, if_false] at hrub
      omega
  · rw [if_neg (fun hc => (show ¬((mi : Int) + 1 = 2) from by omega) hc.1)]
    have : ¬(mi = 1 ∧ lp = true) := fun hc => h1 hc.1
    rw [if_neg this] at hrub
    omega

end Ext.Date.JalaliConverter

namespace Ext.Date

open JalaliConverter

/-- Unfolding rule for `isJalaliValid` on in-bounds arguments, in terms of the
round-trip composition. -/
theorem isJalaliValid_inBounds (y m d : Int)
    (hb : ¬(y > 1500 ∨ y < 1 ∨ m > 12 ∨ m < 1 ∨ d > 31 ∨ d < 1)) :
    isJalaliValid y m d = true ↔
      (jalaliToGregorian (y, m, d)).bind gregorianToJalali = some (y, m, d) := by
  unfold isJalaliValid
  rw [if_neg hb]
  rcases hj : jalaliToGregorian (y, m, d) with _ | g
  · simp
  · simp only [Option.some_bind]
    rcases hg : gregorianToJalali g with _ | t
    · simp
    · rcases t with ⟨a, b, c⟩
      simp only [Bool.and_eq_true, beq_iff_eq, Option.some.injEq, Prod.mk.injEq]
      tauto

/-- `isJalaliValid` holds exactly on year-bounded calendar-valid triples. -/
theorem isJalaliValid_iff_calValid (y m d : Int) :
    isJalaliValid y m d = true ↔ 1 ≤ y ∧ y ≤ 1500 ∧ jalaliCalValid (y, m, d) := by
  constructor
  · intro hv
    have hb : ¬(y > 1500 ∨ y < 1 ∨ m > 12 ∨ m < 1 ∨ d > 31 ∨ d < 1) := by
      by_contra hb
      unfold isJalaliValid at hv
      rw [if_pos hb] at hv
      exact absurd hv (by simp)
    have hrt := (isJalaliValid_inBounds y m d hb).mp hv
    refine ⟨by omega, by omega, ?_⟩
    rcases hj : jalaliToGregorian (y, m, d) with _ | g
    · rw [hj] at hrt
      simp at hrt
    · rw [hj] at hrt
      simp only [Option.some_bind] at hrt
      rcases hdn : gregDayNo g with _ | N
      · rw [show gregorianToJalali g = none from by
          simp only [gregorianToJalali, hdn, Option.map_none']] at hrt
        exact absurd hrt (by simp)
      · have : gregorianToJalali g = some (jalaliFromDayNo (N - 79)) := by
          simp only [gregorianToJalali, hdn, Option.map_some']
        rw [this] at hrt
        obtain hEq := Option.some.inj hrt
        rw [← hEq]
        exact jalaliFromDayNo_calValid (N - 79)
  · rintro ⟨hy1, hy2, hvalid⟩
    have hd31 : d ≤ 31 := by
      have hvv := hvalid
      simp only [jalaliCalValid] at hvv
      obtain ⟨h1, h2, h3, h4⟩ := hvv
      have hlen : ∀ k : Nat, k < 12 → jalaliDaysInMonth.getD k 0 ≤ 31 := by decide
      have := hlen (m - 1).toNat (by omega)
      have hg11 : jalaliDaysInMonth.getD 11 0 = (29 : Int) := by decide
      by_cases hc : m = 12 ∧ jalaliLeap (y - 979)
      · rw [if_pos hc] at h4
        rw [show (m - 1).toNat = 11 from by omega, hg11] at h4
        omega
      · rw [if_neg hc] at h4
        omega
    have hmb : 1 ≤ m ∧ m ≤ 12 := by
      have hvv := hvalid
      simp only [jalaliCalValid] at hvv
      exact ⟨hvv.1, hvv.2.1⟩
    have hdb : 1 ≤ d := by
      have hvv := hvalid
      simp only [jalaliCalValid] at hvv
      exact hvv.2.2.1
    have hb : ¬(y > 1500 ∨ y < 1 ∨ m > 12 ∨ m < 1 ∨ d > 31 ∨ d < 1) := by omega
    exact (isJalaliValid_inBounds y m d hb).mpr (jalali_round_trip y m d hvalid)

/-- The engine's leap-year test agrees with the converter's 33-year leap
pattern on years in the validation range. -/
theorem isJalaliLeapYear_iff (y : Int) :
    isJalaliLeapYear y = true ↔ 1 ≤ y ∧ y ≤ 1500 ∧ jalaliLeap (y - 979) := by
  unfold isJalaliLeapYear
  rw [isJalaliValid_iff_calValid]
  constructor
  · rintro ⟨h1, h2, hv⟩
    simp only [jalaliCalValid] at hv
    obtain ⟨_, _, _, h4⟩ := hv
    refine ⟨h1, h2, ?_⟩
    by_contra hnl
    rw [if_neg (fun hc => hnl hc.2)] at h4
    have hg11 : jalaliDaysInMonth.getD (12 - 1 : Int).toNat 0 = (29 : Int) := by decide
    rw [hg11] at h4
    omega
  · rintro ⟨h1, h2, hL⟩
    refine ⟨h1, h2, ?_⟩
    simp only [jalaliCalValid]
    refine ⟨by norm_num, by norm_num, by norm_num, ?_⟩
    have hg11 : jalaliDaysInMonth.getD (12 - 1 : Int).toNat 0 = (29 : Int) := by decide
    split_ifs with hc
    · rw [hg11]
      norm_num
    · exact absurd ⟨by trivial, hL⟩ hc

end Ext.Date

/-- C1: `gregorianToJalali` and `jalaliToGregorian` are mutual exact inverses:
every calendar-valid Gregorian triple with year in `[1, 3000]` converts to
Jalali and back to itself, and every calendar-valid Jalali triple with year in
`[1, 1500]` converts to Gregorian and back to itself. -/
theorem converters_mutual_inverses :
    (∀ y m d : Int, 1 ≤ y → y ≤ 3000 → Ext.Date.JalaliConverter.gregCalValid (y, m, d) →
      (Ext.Date.JalaliConverter.gregorianToJalali (y, m, d)).bind
        Ext.Date.JalaliConverter.jalaliToGregorian = some (y, m, d)) ∧
    (∀ y m d : Int, 1 ≤ y → y ≤ 1500 → Ext.Date.JalaliConverter.jalaliCalValid (y, m, d) →
      (Ext.Date.JalaliConverter.jalaliToGregorian (y, m, d)).bind
        Ext.Date.JalaliConverter.gregorianToJalali = some (y, m, d)) :=
  ⟨fun y m d _ _ h => Ext.Date.JalaliConverter.greg_round_trip y m d h,
   fun y m d _ _ h => Ext.Date.JalaliConverter.jalali_round_trip y m d h⟩

/-- Witness for C1 at Gregorian 2010-09-05 and Jalali 1389-06-14. -/
theorem converters_mutual_inverses_witness :
    (Ext.Date.JalaliConverter.gregorianToJalali (2010, 9, 5)).bind
        Ext.Date.JalaliConverter.jalaliToGregorian = some (2010, 9, 5) ∧
    (Ext.Date.JalaliConverter.jalaliToGregorian (1389, 6, 14)).bind
        Ext.Date.JalaliConverter.gregorianToJalali = some (1389, 6, 14) :=
  ⟨converters_mutual_inverses.1 2010 9 5 (by norm_num) (by norm_num) (by decide),
   converters_mutual_inverses.2 1389 6 14 (by norm_num) (by norm_num) (by decide)⟩

/-- C2: `isJalaliValid y m d` returns true exactly when the triple passes the
bounds check `1 ≤ y ≤ 1500`, `1 ≤ m ≤ 12`, `1 ≤ d ≤ 31` and converting to
Gregorian and back reproduces the triple exactly; in particular
`isJalaliValid 0 1 1`, `isJalaliValid 1 13 1` and `isJalaliValid 1 1 32` are
all false. -/
theorem isJalaliValid_spec :
    (∀ y m d : Int, Ext.Date.isJalaliValid y m d = true ↔
      1 ≤ y ∧ y ≤ 1500 ∧ 1 ≤ m ∧ m ≤ 12 ∧ 1 ≤ d ∧ d ≤ 31 ∧
        ∃ g, Ext.Date.JalaliConverter.jalaliToGregorian (y, m, d) = some g ∧
          Ext.Date.JalaliConverter.gregorianToJalali g = some (y, m, d)) ∧
    Ext.Date.isJalaliValid 0 1 1 = false ∧
    Ext.Date.isJalaliValid 1 13 1 = false ∧
    Ext.Date.isJalaliValid 1 1 32 = false := by
  refine ⟨?_, by decide, by decide, by decide⟩
  intro y m d
  by_cases hb : y > 1500 ∨ y < 1 ∨ m > 12 ∨ m < 1 ∨ d > 31 ∨ d < 1
  · constructor
    · intro hv
      exfalso
      unfold Ext.Date.isJalaliValid at hv
      rw [if_pos hb] at hv
      simp at hv
    · rintro ⟨h1, h2, h3, h4, h5, h6, -⟩
      exact absurd hb (by omega)
  · rw [Ext.Date.isJalaliValid_inBounds y m d hb]
    constructor
    · intro hrt
      refine ⟨by omega, by omega, by omega, by omega, by omega, by omega, ?_⟩
      rcases hj : Ext.Date.JalaliConverter.jalaliToGregorian (y, m, d) with _ | g
      · rw [hj] at hrt
        simp at hrt
      · rw [hj] at hrt
        simp only [Option.some_bind] at hrt
        exact ⟨g, rfl, hrt⟩
    · rintro ⟨-, -, -, -, -, -, g, hg1, hg2⟩
      rw [hg1]
      simp only [Option.some_bind]
      exact hg2

/-- C3: `isJalaliLeapYear year` returns the same boolean as
`isJalaliValid year 12 30` for every year; the known Jalali leap years 1375,
1379 and 1383 return true, and the non-leap years 1376, 1380 and 1384 return
false. -/
theorem isJalaliLeapYear_spec :
    (∀ y : Int, Ext.Date.isJalaliLeapYear y = Ext.Date.isJalaliValid y 12 30) ∧
    Ext.Date.isJalaliLeapYear 1375 = true ∧
    Ext.Date.isJalaliLeapYear 1379 = true ∧
    Ext.Date.isJalaliLeapYear 1383 = true ∧
    Ext.Date.isJalaliLeapYear 1376 = false ∧
    Ext.Date.isJalaliLeapYear 1380 = false ∧
    Ext.Date.isJalaliLeapYear 1384 = false :=
  ⟨fun _ => rfl, by decide, by decide, by decide, by decide, by decide, by decide⟩

/-- Counterexample to C8 as stated: a month of 14 drives the month-accumulation
loop past the end of the 12-entry month table (index 12 is read, which is
`undefined` in JavaScript and poisons the result with `NaN`), so neither
converter produces an integer triple on every integer input. -/
theorem converters_not_total_counterexample :
    Ext.Date.JalaliConverter.gregorianToJalali (2000, 14, 1) = none ∧
    Ext.Date.JalaliConverter.jalaliToGregorian (1390, 14, 1) = none := by
  constructor <;> decide

/-- C8 amended: on any integer triple whose month is at most 13 (so the
0-based month-accumulation loop reads only indices `0..11` of the 12-entry
tables), both converters terminate and return an integer triple; every
division in them has a positive literal divisor, and no error is signalled.
For months of 14 or more the table is read out of bounds. -/
theorem converters_total_of_month_le (gy gm gd jy jm jd : Int)
    (hgm : gm ≤ 13) (hjm : jm ≤ 13) :
    (Ext.Date.JalaliConverter.gregorianToJalali (gy, gm, gd)).isSome = true ∧
    (Ext.Date.JalaliConverter.jalaliToGregorian (jy, jm, jd)).isSome = true :=
  ⟨Ext.Date.JalaliConverter.gregorianToJalali_isSome gy gm gd hgm,
   Ext.Date.JalaliConverter.jalaliToGregorian_isSome jy jm jd hjm⟩

/-- Witness for the amended C8 on wildly invalid triples. -/
theorem converters_total_witness :
    (Ext.Date.JalaliConverter.gregorianToJalali (-500, -7, 1000)).isSome = true ∧
    (Ext.Date.JalaliConverter.jalaliToGregorian (-100, 13, -400)).isSome = true :=
  converters_total_of_month_le (-500) (-7) 1000 (-100) 13 (-400)
    (by norm_num) (by norm_num)

/-- C9: `div a b` is floor division — for every `a` and positive `b` it returns
the floor of the rational quotient `a / b` (also for negative `a`) — and
`remainder a b` equals `a - div a b * b` and always lies in `[0, b)`. -/
theorem div_remainder_spec (a b : Int) (hb : 0 < b) :
    Ext.Date.JalaliConverter.div a b = ⌊(a : ℚ) / (b : ℚ)⌋ ∧
    Ext.Date.JalaliConverter.remainder a b = a - Ext.Date.JalaliConverter.div a b * b ∧
    0 ≤ Ext.Date.JalaliConverter.remainder a b ∧
    Ext.Date.JalaliConverter.remainder a b < b := by
  have hfloor : ⌊(a : ℚ) / (b : ℚ)⌋ = a / b := by
    obtain ⟨n, rfl⟩ : ∃ n : Nat, ((n : Int)) = b := ⟨b.toNat, by omega⟩
    push_cast
    exact Rat.floor_intCast_div_natCast a n
  refine ⟨?_, rfl, ?_, ?_⟩
  · rw [hfloor]
    exact Ext.Date.JalaliConverter.div_eq_ediv a (le_of_lt hb)
  · rw [Ext.Date.JalaliConverter.remainder_eq_emod a (le_of_lt hb)]
    exact Int.emod_nonneg a (by omega)
  · rw [Ext.Date.JalaliConverter.remainder_eq_emod a (le_of_lt hb)]
    exact Int.emod_lt_of_pos a hb

/-- Witness for C9 at `a = -7`, `b = 2`, where floor division gives `-4`
rather than truncation's `-3`. -/
theorem div_remainder_spec_witness :
    Ext.Date.JalaliConverter.div (-7) 2 = ⌊((-7 : Int) : ℚ) / ((2 : Int) : ℚ)⌋ ∧
    Ext.Date.JalaliConverter.remainder (-7) 2 =
      -7 - Ext.Date.JalaliConverter.div (-7) 2 * 2 ∧
    0 ≤ Ext.Date.JalaliConverter.remainder (-7) 2 ∧
    Ext.Date.JalaliConverter.remainder (-7) 2 < 2 :=
  div_remainder_spec (-7) 2 (by norm_num)

/-- Counterexample to C4 as stated: 1395 is a Jalali leap year (the spec calls
it non-leap), Esfand 29 is nowhere near overflow, and adding one month to the
date Gregorian 2017-03-19 — whose Jalali decomposition is 1395-12-29, the
claim's (1395, 11, 29) in 0-based months — gives 1396-01-29: the month rolled
into the next year with the day kept, not the day reset to 1. -/
theorem addJalali_examples_counterexample :
    Ext.Date.JalaliConverter.gregorianToJalali (2017, 3, 19) =
      some (1395, 12, 29) ∧
    Ext.Date.addJalali (2017, 3, 19) Ext.Date.JalaliInterval.month 1 =
      some (1396, 1, 29) ∧
    Ext.Date.addJalali (2017, 3, 19) Ext.Date.JalaliInterval.month 1 ≠
      some (1396, 1, 1) ∧
    Ext.Date.isJalaliLeapYear 1395 = true :=
  ⟨by decide, by decide, by decide, by decide⟩

/-- C4 amended, on the Jalali observation of `addJalali` run from the starting
date's Gregorian triple. Adding one month to Gregorian 2017-03-19 (Jalali
1395-12-29, 0-based month 11) rolls the month into the next year and keeps the
day, giving 1396-01-29. Adding one year to 2017-03-20 (Jalali 1395-12-30, the
leap day of leap year 1395) clamps the day to 29 because 1396 is not leap,
giving 1396-12-29 as the claim stated. A 31st rolled into a 30-day month is
clamped to the 30th: one month after 2010-09-22 (Jalali 1389-06-31) is
1389-07-30. And the setter write-back's own rollover is reproduced: 50 days
after 2020-12-31 (Jalali 1399-10-11) comes out as 1399-12-29 — the date the
program returns via `setMonth` rolling "February 31" into March — not the
1399-12-01 that exact day arithmetic would give. -/
theorem addJalali_examples :
    Ext.Date.addJalali (2017, 3, 19) Ext.Date.JalaliInterval.month 1 =
      some (1396, 1, 29) ∧
    Ext.Date.addJalali (2017, 3, 20) Ext.Date.JalaliInterval.year 1 =
      some (1396, 12, 29) ∧
    Ext.Date.addJalali (2010, 9, 22) Ext.Date.JalaliInterval.month 1 =
      some (1389, 7, 30) ∧
    Ext.Date.addJalali (2020, 12, 31) Ext.Date.JalaliInterval.day 50 =
      some (1399, 12, 29) :=
  ⟨by decide, by decide, by decide, by decide⟩

/-- Counterexample to C5 as stated: 1395 is a Jalali leap year, so
`"1395/12/30"` names an existing date; a strict parse accepts it and returns
the date (Gregorian 2017-03-20) instead of the claimed no-value result. -/
theorem parseJalali_strict_counterexample :
    Ext.Date.parseJalali ['1', '3', '9', '5', '/', '1', '2', '/', '3', '0'] true =
      some (2017, 3, 20) ∧
    Ext.Date.parseJalali ['1', '3', '9', '5', '/', '1', '2', '/', '3', '0'] true ≠
      none :=
  ⟨by decide, by decide⟩

/-- C5 amended: the year whose Esfand 30 does not exist is the non-leap 1394,
not 1395: a strict parse of `"1394/12/30"` returns no value while
`"1394/12/29"` and the leap-day string `"1395/12/30"` parse to dates; and any
input whose first three `/`-separated fields do not all parse as numbers
(missing fields included) yields no value in either mode instead of an
error. -/
theorem parseJalali_spec_amended :
    Ext.Date.parseJalali ['1', '3', '9', '4', '/', '1', '2', '/', '3', '0'] true =
      none ∧
    Ext.Date.parseJalali ['1', '3', '9', '4', '/', '1', '2', '/', '2', '9'] true =
      some (2016, 3, 19) ∧
    Ext.Date.parseJalali ['1', '3', '9', '5', '/', '1', '2', '/', '3', '0'] true =
      some (2017, 3, 20) ∧
    (∀ (s : List Char) (strict : Bool),
      (((Ext.Date.splitOnSlash s).get? 0).bind Ext.Date.parseIntJS = none ∨
       ((Ext.Date.splitOnSlash s).get? 1).bind Ext.Date.parseIntJS = none ∨
       ((Ext.Date.splitOnSlash s).get? 2).bind Ext.Date.parseIntJS = none) →
      Ext.Date.parseJalali s strict = none) := by
  refine ⟨by decide, by decide, by decide, ?_⟩
  intro s strict h
  unfold Ext.Date.parseJalali
  rcases h with h | h | h
  · simp only [h]
  · rcases h0 : ((Ext.Date.splitOnSlash s).get? 0).bind Ext.Date.parseIntJS with _ | a <;>
      simp only [h0, h]
  · rcases h0 : ((Ext.Date.splitOnSlash s).get? 0).bind Ext.Date.parseIntJS with _ | a <;>
      rcases h1 : ((Ext.Date.splitOnSlash s).get? 1).bind Ext.Date.parseIntJS with _ | b <;>
        simp only [h0, h1, h]

/-- Witness for the malformed-input part of the amended C5: a string with no
slash has no second field, so the parse yields no value. -/
theorem parseJalali_spec_amended_witness :
    Ext.Date.parseJalali ['x'] false = none :=
  parseJalali_spec_amended.2.2.2 ['x'] false (by decide)

/-- C6: for every Jalali year in `[1, 1500]` and 1-based month `m` in
`[1, 12]`, `getJalaliDaysInMonth` on the 0-based index `m - 1` returns 31 for
months 1..6, 30 for months 7..11, and 29 or 30 for month 12 by
`isJalaliLeapYear`, and that value equals `correctJalaliDateOfMonth` applied
to 31 — the clamp value is exactly the month length. -/
theorem getJalaliDaysInMonth_spec (y m : Int) (_h1 : 1 ≤ y) (_h2 : y ≤ 1500)
    (h3 : 1 ≤ m) (h4 : m ≤ 12) :
    Ext.Date.getJalaliDaysInMonth y (m - 1) =
      (if m ≤ 6 then (31 : Int) else if m ≤ 11 then 30
       else if Ext.Date.isJalaliLeapYear y then 30 else 29) ∧
    Ext.Date.getJalaliDaysInMonth y (m - 1) =
      Ext.Date.correctJalaliDateOfMonth y (m - 1) 31 := by
  unfold Ext.Date.getJalaliDaysInMonth Ext.Date.correctJalaliDateOfMonth
  cases hL : Ext.Date.isJalaliLeapYear y <;>
    simp only [hL, Bool.false_eq_true, if_false, if_true] <;>
      constructor <;>
        split_ifs <;>
          omega

/-- Witness for C6 at year 1389, month 12 (1389 is not leap, so Esfand has
29 days). -/
theorem getJalaliDaysInMonth_spec_witness :
    Ext.Date.getJalaliDaysInMonth 1389 (12 - 1) =
      (if (12 : Int) ≤ 6 then (31 : Int) else if (12 : Int) ≤ 11 then 30
       else if Ext.Date.isJalaliLeapYear 1389 then 30 else 29) ∧
    Ext.Date.getJalaliDaysInMonth 1389 (12 - 1) =
      Ext.Date.correctJalaliDateOfMonth 1389 (12 - 1) 31 :=
  getJalaliDaysInMonth_spec 1389 12 (by norm_num) (by norm_num) (by norm_num)
    (by norm_num)

/-- Counterexample to C7 as stated: the cap to 30 is not limited to month
indices 6..10 — every index above 5 other than 11 is capped, out-of-range
indices included: index 12 turns day 31 into 30 instead of leaving it
unchanged. -/
theorem correctJalaliDateOfMonth_counterexample :
    Ext.Date.correctJalaliDateOfMonth 1390 12 31 = 30 ∧
    Ext.Date.correctJalaliDateOfMonth 1390 12 31 ≠ 31 :=
  ⟨by decide, by decide⟩

/-- C7 amended: for every integer day the result is first clamped into
`[1, 31]`; then month index 11 is capped at 29, or 30 in `isJalaliLeapYear`
years, every other index above 5 (indices 6..10, but also any index of 12 or
more) is capped at 30, and indices of 5 or less (negative ones included) get
the clamped day unchanged. -/
theorem correctJalaliDateOfMonth_spec (y mth d : Int) :
    Ext.Date.correctJalaliDateOfMonth y mth d =
      (if mth = 11 then
        (if max 1 (min 31 d) ≤ 29 then max 1 (min 31 d)
         else if Ext.Date.isJalaliLeapYear y then 30 else 29)
       else if mth > 5 then min (max 1 (min 31 d)) 30
       else max 1 (min 31 d)) := by
  unfold Ext.Date.correctJalaliDateOfMonth
  cases hL : Ext.Date.isJalaliLeapYear y <;>
    simp only [hL, Bool.false_eq_true, if_false, if_true] <;>
      split_ifs <;>
        omega

/-- Any triple `gregorianToJalali` returns is calendar-valid: it is the
`jalaliFromDayNo` decomposition of some day number. -/
theorem gregorianToJalali_calValid (g r : Int × Int × Int)
    (h : Ext.Date.JalaliConverter.gregorianToJalali g = some r) :
    Ext.Date.JalaliConverter.jalaliCalValid r := by
  unfold Ext.Date.JalaliConverter.gregorianToJalali at h
  rcases hN : Ext.Date.JalaliConverter.gregDayNo g with _ | N
  · rw [hN] at h
    simp at h
  · rw [hN] at h
    simp only [Option.map_some', Option.some.injEq] at h
    rw [← h]
    exact Ext.Date.JalaliConverter.jalaliFromDayNo_calValid (N - 79)

/-- A bound computation whose last step is `gregorianToJalali` only ever
returns calendar-valid Jalali triples. -/
theorem calValid_of_bind_some {α : Type} (o : Option α)
    (f : α → Option (Int × Int × Int)) (r : Int × Int × Int)
    (hf : ∀ a r', f a = some r' → Ext.Date.JalaliConverter.jalaliCalValid r')
    (h : o.bind f = some r) : Ext.Date.JalaliConverter.jalaliCalValid r := by
  rcases o with _ | a
  · simp at h
  · simp only [Option.some_bind] at h
    exact hf a r h

/-- C10: `addJalali`, started from any calendar-valid Gregorian date — so from
every reachable starting `Date`, whatever Jalali triple it decomposes to —
lands on a valid Jalali date: for every interval and every amount, if the
observed Jalali triple of the returned date is `(ry, rm, rd)` and `ry` lies in
`[1, 1500]`, then `isJalaliValid ry rm rd`. Every branch observes the returned
date through `gregorianToJalali`, whose output is always the decomposition of
a day number, so no nonexistent day such as Esfand 30 of a non-leap year is
ever produced — even on the write-back paths where `setMonth` rollover moves
the date. -/
theorem addJalali_preserves_valid (gy gm gd ry rm rd v : Int)
    (iv : Ext.Date.JalaliInterval)
    (_hstart : Ext.Date.JalaliConverter.gregCalValid (gy, gm, gd))
    (hres : Ext.Date.addJalali (gy, gm, gd) iv v = some (ry, rm, rd))
    (hy1 : 1 ≤ ry) (hy2 : ry ≤ 1500) :
    Ext.Date.isJalaliValid ry rm rd = true := by
  rw [Ext.Date.isJalaliValid_iff_calValid]
  refine ⟨hy1, hy2, ?_⟩
  unfold Ext.Date.addJalali at hres
  by_cases hv : v = 0
  · rw [if_pos hv] at hres
    exact gregorianToJalali_calValid _ _ hres
  · rw [if_neg hv] at hres
    refine calValid_of_bind_some _ _ _ ?_ hres
    intro j r' h'
    refine calValid_of_bind_some _ _ _ ?_ h'
    intro g' r'' h''
    exact calValid_of_bind_some _ _ _
      (fun a r''' h''' => gregorianToJalali_calValid a r''' h''') h''

/-- Witness for C10: one year after Gregorian 2017-03-20, the leap day Jalali
1395-12-30, the observed triple is the valid date 1396-12-29. -/
theorem addJalali_preserves_valid_witness :
    Ext.Date.isJalaliValid 1396 12 29 = true :=
  addJalali_preserves_valid 2017 3 20 1396 12 29 1 Ext.Date.JalaliInterval.year
    (by decide) (by decide) (by norm_num) (by norm_num)
